import Mathlib

/-!
Shallow embedding of the `toch` command-line loader (invertedv/toch) and
proofs about its specification claims.  The sources are two revisions of
the same `main.go`: `src/toch.go` and `src/unnamed/part_000`.  Go strings
are modelled as lists of characters (the data this program manipulates is
ASCII); machine integers as `Int`; fallible code as `Except`/`Option`;
Go panics as explicit `panicked` constructors.  External collaborators
(the chutils reader/writer library, the HTTP stack, ClickHouse) are kept
at their interface boundary: an `Env` record supplies what they would
return, and the two chutils entry points that decide claims (`Impute`,
`Export`) are modelled from the spec, as marked in their doc comments.
-/

set_option linter.unusedVariables false

namespace Toch

/-- Go strings, modelled as lists of characters. -/
abbrev GoStr := List Char

/-- Literal Go strings. -/
def str (s : String) : GoStr := s.data

/-- The apostrophe character (stripped from -h and -t option values). -/
def apos : Char := Char.ofNat 39

/-- Go strings.ToLower on one character, for the ASCII data this tool handles. -/
def goLowerChar (c : Char) : Char :=
  if 65 ≤ c.toNat ∧ c.toNat ≤ 90 then Char.ofNat (c.toNat + 32) else c

/-- Go strings.ToUpper on one character (ASCII). -/
def goUpperChar (c : Char) : Char :=
  if 97 ≤ c.toNat ∧ c.toNat ≤ 122 then Char.ofNat (c.toNat - 32) else c

/-- Go strings.ToLower. -/
def goToLowerStr (s : GoStr) : GoStr := s.map goLowerChar

/-- Go strings.ToUpper. -/
def goToUpperStr (s : GoStr) : GoStr := s.map goUpperChar

/-- Does `s` start with `pat`?  (Go strings.HasPrefix; used to model Contains
and Replace.) -/
def goStartsWith : GoStr → GoStr → Bool
  | _, [] => true
  | [], _ :: _ => false
  | a :: s, b :: t => a == b && goStartsWith s t

/-- Go strings.Contains. -/
def goContains : GoStr → GoStr → Bool
  | [], pat => goStartsWith [] pat
  | c :: rest, pat => goStartsWith (c :: rest) pat || goContains rest pat

/-- Go strings.Replace(s, old, new, 1) for non-empty `old`: replace the
first occurrence of `old`, leave `s` unchanged when there is none. -/
def goReplaceFirst : GoStr → GoStr → GoStr → GoStr
  | [], _, _ => []
  | c :: rest, old, new =>
    if goStartsWith (c :: rest) old then new ++ (c :: rest).drop old.length
    else c :: goReplaceFirst rest old new

/-- Go strings.ReplaceAll(s, old, "") when `old` is a single character. -/
def goRemoveAll (ch : Char) (s : GoStr) : GoStr := s.filter (fun c => !(c == ch))

/-- Go strings.ReplaceAll(s, old, new) when `old` and `new` are single
characters (used for the space-to-underscore rewrite in toCamel). -/
def goSwapAll (a b : Char) (s : GoStr) : GoStr := s.map (fun c => if c == a then b else c)

/-- Go strings.Split(s, sep) for a single-character separator. -/
def goSplit (sep : Char) (s : GoStr) : List GoStr := s.splitOn sep

/-- Membership of a character in the IndexAny set "._" of toCamel. -/
def isSep (c : Char) : Bool := c == '.' || c == '_'

/-- Go strings.IndexAny(s, "._"): index of the first '.' or '_'. -/
def findSep : GoStr → Option Nat
  | [] => none
  | c :: rest => if isSep c then some 0 else (findSep rest).map (· + 1)

/-- Outcome of the toCamel transform: a result, a Go panic (slice bounds out
of range), or fuel exhaustion.  The fuel case is unreachable when the loop is
started with more fuel than the string length, since every pass shortens the
string by one character. -/
inductive CamelResult where
  | ok : GoStr → CamelResult
  | panicked : CamelResult
  | fuelOut : CamelResult
  deriving DecidableEq

/-- The for-loop of toCamel.  Each pass finds the first '.' or '_' at index
`ind`, takes the two-character slice snake[ind:ind+2] — panicking exactly
when ind+2 exceeds the length, as the Go slice expression does — and
replaces the first occurrence of that slice with the upper-cased second
character. -/
def toCamelLoop : Nat → GoStr → CamelResult
  | 0, _ => .fuelOut
  | fuel + 1, s =>
    match findSep s with
    | none => .ok s
    | some ind =>
      if h : ind + 2 ≤ s.length then
        toCamelLoop fuel
          (goReplaceFirst s [s.get ⟨ind, by omega⟩, s.get ⟨ind + 1, by omega⟩]
            (goToUpperStr [s.get ⟨ind + 1, by omega⟩]))
      else .panicked

/-- toCamel converts from snake case to camel case (toch.go line 312,
part_000 line 361; the part_000 revision inserts a replace of the empty
slice snake[0:0] by its own lower-casing, which is a no-op).  Spaces are
first rewritten to underscores, the whole name is lower-cased, and the
loop then erases '.'/'_' boundaries. -/
def toCamelGo (snake : GoStr) : CamelResult :=
  toCamelLoop ((goToLowerStr (goSwapAll ' ' '_' snake)).length + 1)
    (goToLowerStr (goSwapAll ' ' '_' snake))

/-! ### Fixed lookup tables (toch.go lines 78-88) -/

/-- Types of file formats toch handles. -/
def types : List GoStr := [str "text", str "csv", str "xlsx", str "xls"]

/-- Reserved field names — ClickHouse will not allow these. -/
def reserved : List GoStr := [str "index"]

/-- Allowed values for -t field types the user can specify. -/
def ftypes : List GoStr := [str "s", str "i", str "d", str "f"]

/-- Allowed values for -c camel case (and the -i toggle of part_000). -/
def ctypes : List GoStr := [str "y", str "n"]

/-- isIn (part_000 revision, line 378): membership of the lower-cased needle
in the stack.  The `toLower` argument of the Go function only controls
whether the caller's variable is overwritten with the lower-cased copy; call
sites that rely on that mutation inline the lower-cased value below. -/
def isIn (needle : GoStr) (stack : List GoStr) : Bool :=
  stack.contains (goToLowerStr needle)

/-! ### flags (part_000 lines 409-484; toch.go lines 357-427 is the same
function minus the -i toggle) -/

/-- Go strconv.ParseInt(s, 10, 32): optional sign, base-10 digits,
32-bit range check. -/
def splitSign : GoStr → Bool × GoStr
  | '-' :: rest => (true, rest)
  | '+' :: rest => (false, rest)
  | s => (false, s)

/-- Accumulate base-10 digits. -/
def digitsVal (ds : GoStr) : Nat := ds.foldl (fun acc c => acc * 10 + (c.toNat - 48)) 0

/-- Go strconv.ParseInt(s, 10, 32). -/
def goParseInt32 (s : GoStr) : Except String Int :=
  if (splitSign s).2.isEmpty || !((splitSign s).2.all Char.isDigit) then
    .error ("parsing " ++ String.mk s ++ ": invalid syntax")
  else
    if ((if (splitSign s).1 then -(digitsVal (splitSign s).2 : Int)
         else (digitsVal (splitSign s).2 : Int)) < -(2 ^ 31)) ∨
       (2 ^ 31 - 1 < (if (splitSign s).1 then -(digitsVal (splitSign s).2 : Int)
         else (digitsVal (splitSign s).2 : Int))) then
      .error ("parsing " ++ String.mk s ++ ": value out of range")
    else
      .ok (if (splitSign s).1 then -(digitsVal (splitSign s).2 : Int)
           else (digitsVal (splitSign s).2 : Int))

/-- The ParseInt loop at the end of flags: xlArea[ind] comes from the rows
halves and xlArea[2+ind] from the cols halves, parsed in the order
r[0], c[0], r[1], c[1] — the first failure is returned as the error. -/
def parseXlArea (r c : List GoStr) : Except String (List Int) := do
  let r0 ← goParseInt32 (r.getD 0 [])
  let c0 ← goParseInt32 (c.getD 0 [])
  let r1 ← goParseInt32 (r.getD 1 [])
  let c1 ← goParseInt32 (c.getD 1 [])
  pure [r0, r1, c0, c1]

/-- The -h value digested by flags: spaces and apostrophes removed, then
split on commas (empty -h means no user-supplied headers). -/
def parseHeaderList (headerP : GoStr) : List GoStr :=
  if headerP.isEmpty then [] else goSplit ',' (goRemoveAll apos (goRemoveAll ' ' headerP))

/-- The -t value digested by flags: spaces removed, lower-cased, apostrophes
removed, then split on commas. -/
def parseFieldTypeList (fieldP : GoStr) : List GoStr :=
  if fieldP.isEmpty then [] else goSplit ',' (goRemoveAll apos (goToLowerStr (goRemoveAll ' ' fieldP)))

/-- The digested values flags returns on success. -/
structure FlagsOk where
  headers : List GoStr
  fieldTypes : List GoStr
  camel : Bool
  ignore : Bool
  quote : Char
  xlArea : List Int
  deriving DecidableEq

/-- Result of flags: digested values, a descriptive error, or a Go panic. -/
inductive FlagsResult where
  | ok : FlagsOk → FlagsResult
  | err : String → FlagsResult
  | panicked : FlagsResult
  deriving DecidableEq

/-- flags checks that the command-line options are valid and returns the
digested values.  Two quirks of the source are preserved: the -q length
check stores its error in the named `err` return WITHOUT returning, and
that error is then unconditionally overwritten by the ParseInt assignments
before flags returns, so it never escapes and is dropped here; and the
expression rune((*quotePtr)[0]) panics when -q is the empty string. -/
def flags (sTypeP camelP headerP fieldP quoteP xlRowsP xlColsP : GoStr)
    (skipP : Int) (ignoreP : GoStr) : FlagsResult :=
  if !(isIn sTypeP types) then
    .err ("unrecognized source type: " ++ String.mk (goToLowerStr sTypeP))
  else if !(isIn camelP ctypes) then .err "-c option is Y or N"
  else if !(isIn ignoreP ctypes) then .err "-c option is Y or N"
  else
    match quoteP with
    | [] => .panicked
    | qc :: _ =>
      match (parseFieldTypeList fieldP).find? (fun f => !(isIn f ftypes)) with
      | some f => .err ("not a valid field type: " ++ String.mk f)
      | none =>
        if (parseHeaderList headerP).length ≠ (parseFieldTypeList fieldP).length ∧
            0 < (parseHeaderList headerP).length ∧ 0 < (parseFieldTypeList fieldP).length then
          .err "-h headers and -t field types must have same length"
        else if skipP < 0 then .err "-skip value must be non-negative"
        else if !(goContains xlRowsP (str ":")) || !(goContains xlColsP (str ":")) then
          .err "invalid XL rows/cols specs"
        else
          match parseXlArea (goSplit ':' xlRowsP) (goSplit ':' xlColsP) with
          | .error m => .err m
          | .ok area =>
            .ok ⟨parseHeaderList headerP, parseFieldTypeList fieldP,
                 goToLowerStr camelP == str "y", goToLowerStr ignoreP == str "y", qc, area⟩

/-! ### Schema data model (chutils types, as used by toch) -/

/-- Semantic column types (chutils ChUnknown / ChInt / ChFloat / ChString / ChDate). -/
inductive ChType where
  | ChUnknown
  | ChInt
  | ChFloat
  | ChString
  | ChDate
  deriving DecidableEq

/-- Illegal-value sentinels stored in FieldDef.Missing.  `dateVal y m d`
stands for time.Date(y, m, d, 0, 0, 0, 0, time.UTC); `floatMaxVal` for the
constant math.MaxFloat64 (kept symbolic — no floating-point arithmetic is
performed on it). -/
inductive Sentinel where
  | dateVal (y m d : Nat)
  | intVal (n : Int)
  | floatMaxVal
  | strVal (s : GoStr)
  deriving DecidableEq

/-- chutils.ChField: base type and bit length. -/
structure ChField where
  Base : ChType
  Length : Nat
  deriving DecidableEq

/-- chutils.FieldDef, restricted to the fields toch reads or writes. -/
structure FieldDef where
  Name : GoStr
  ChSpec : ChField
  Missing : Option Sentinel
  deriving DecidableEq

/-- chutils.TableDef, restricted to the fields toch reads or writes.  The
Go FieldDefs is a map[int]*FieldDef indexed 0..n-1; it is modelled as the
list of its values in index order. -/
structure TableDef where
  Key : GoStr
  FieldDefs : List FieldDef
  deriving DecidableEq

/-! ### Source routing (NewReader, toch.go line 227 / part_000 line 267) -/

/-- The routing test of NewReader: strings.Contains(strings.ToLower(source), "http"). -/
def usesHttp (source : GoStr) : Bool := goContains (goToLowerStr source) (str "http")

/-- Which reader constructor NewReader picks. -/
inductive ReaderRoute where
  | viaHttp
  | viaFile
  deriving DecidableEq

/-- NewReader creates the appropriate kind of reader: the HTTP fetcher when
the lower-cased source contains "http", the local-file opener otherwise. -/
def NewReaderRoute (source : GoStr) : ReaderRoute :=
  if usesHttp source then .viaHttp else .viaFile

/-- Modelled from the spec's words (section 4.1): an identifier is a URL
when it carries an http or https scheme.  Used only to compare the spec's
"is a URL" routing criterion with the source's substring test. -/
def isURLSpec (source : GoStr) : Bool :=
  goStartsWith (goToLowerStr source) (str "http://") ||
    goStartsWith (goToLowerStr source) (str "https://")

/-! ### buildReader (part_000 lines 199-264; toch.go lines 159-224 differs
only in the isIn lower flag of the header loop) -/

/-- The skip count handed to NewReader: when no header names were supplied
the header row must be skipped before data is read, so skip is incremented
by one (buildReader's first statement). -/
def effSkip (headers : List GoStr) (skip : Int) : Int :=
  if headers.isEmpty then skip + 1 else skip

/-- Observable side effects of the pipeline, in order of occurrence. -/
inductive Effect where
  | connect
  | openHttp (usedSkip : Int)
  | openFile (usedSkip : Int)
  | rowRead
  | tableCreate
  deriving DecidableEq

/-- The camel-case step of the header loop: fd.Name = toCamel(fd.Name) when
the -c toggle is on. -/
def camelStage (camel : Bool) (name : GoStr) : CamelResult :=
  if camel then toCamelGo name else .ok name

/-- One pass of the header-name loop over a FieldDef.  `variant1 = true` is
the toch.go revision, where isIn(&fd.Name, reserved, true) lower-cases the
stored name as a side effect before the membership test; `variant1 = false`
is the part_000 revision, where isIn(&fd.Name, reserved, false) tests a
lower-cased copy and leaves the stored name unchanged.  Reserved names get
the suffix "1".  `none` is the toCamel panic. -/
def renameFd (variant1 camel : Bool) (fd : FieldDef) : Option FieldDef :=
  match camelStage camel fd.Name with
  | .ok n1 =>
    if reserved.contains (goToLowerStr n1) then
      some { fd with Name := (if variant1 then goToLowerStr n1 else n1) ++ str "1" }
    else
      some { fd with Name := (if variant1 then goToLowerStr n1 else n1) }
  | _ => none

/-- The header-name loop over all FieldDefs. -/
def processFieldDefs (variant1 camel : Bool) (fds : List FieldDef) : Option (List FieldDef) :=
  fds.mapM (renameFd variant1 camel)

/-- The key after the header loop: the loop assigns TableSpec().Key the
post-rename name of the column at index 0, so the key is the final name of
the first column (or the key Init chose, when there are no columns). -/
def keyAfter (fds : List FieldDef) (key0 : GoStr) : GoStr :=
  match fds with
  | [] => key0
  | fd :: _ => fd.Name

/-- What the external collaborators would return, fixed per run: the
FieldDefs and key that rdr.Init derives from the file's header row, the
data rows that the inference pass samples and the export pass writes, the
external parse predicates the inference engine uses, and the destination's
per-row acceptance. -/
structure Env where
  initFds : List FieldDef
  initKey : GoStr
  sample : List (List GoStr)
  dateOk : GoStr → Bool
  intOk : GoStr → Bool
  floatOk : GoStr → Bool
  writeOk : List GoStr → Bool

/-- The cells of column `i` across the sampled rows. -/
def colCells (sample : List (List GoStr)) (i : Nat) : List GoStr :=
  sample.map (fun r => r.getD i [])

/-- Modelled from the spec (section 4.4): the chutils type-inference engine
(TableDef.Impute), which is not part of this repository's sources.  Per
column it counts how many non-empty cells parse under each candidate type
in the fixed priority order Date, Int64, Float64, and assigns the first
type whose success fraction meets or exceeds the acceptance threshold,
falling back to String otherwise.  The threshold is passed as the ratio
thrNum/thrDen, and "fraction ≥ threshold" is the cross-multiplied test
thrNum·total ≤ thrDen·successes; the lemma `thr_nat` below proves this
test equivalent to the rational inequality with the literal 0.95 when
thrNum/thrDen is 19/20. -/
def imputeColumn (dateOk intOk floatOk : GoStr → Bool) (thrNum thrDen : Nat)
    (cells : List GoStr) : ChType :=
  if 0 < (cells.filter (fun c => !c.isEmpty)).length ∧
      thrNum * (cells.filter (fun c => !c.isEmpty)).length ≤
        thrDen * ((cells.filter (fun c => !c.isEmpty)).filter dateOk).length then .ChDate
  else if 0 < (cells.filter (fun c => !c.isEmpty)).length ∧
      thrNum * (cells.filter (fun c => !c.isEmpty)).length ≤
        thrDen * ((cells.filter (fun c => !c.isEmpty)).filter intOk).length then .ChInt
  else if 0 < (cells.filter (fun c => !c.isEmpty)).length ∧
      thrNum * (cells.filter (fun c => !c.isEmpty)).length ≤
        thrDen * ((cells.filter (fun c => !c.isEmpty)).filter floatOk).length then .ChFloat
  else .ChString

/-- The inference pass over the whole schema: each column's base type is
set from its sampled cells. -/
def imputeAll (env : Env) (thrNum thrDen : Nat) (fds : List FieldDef) : List FieldDef :=
  fds.mapIdx (fun i fd =>
    { fd with ChSpec := ⟨imputeColumn env.dateOk env.intOk env.floatOk thrNum thrDen
        (colCells env.sample i), fd.ChSpec.Length⟩ })

/-- The switch of buildReader's user-supplied-type branch: token "d" gives
Date with sentinel time.Date(1970,1,1,...,UTC); "i" gives Int length 64
with sentinel math.MaxInt64; "f" gives Float length 64 with sentinel
math.MaxFloat64; anything else gives String with sentinel "!". -/
def applyType (tok : GoStr) (fd : FieldDef) : FieldDef :=
  if tok = str "d" then
    { fd with ChSpec := ⟨.ChDate, fd.ChSpec.Length⟩, Missing := some (.dateVal 1970 1 1) }
  else if tok = str "i" then
    { fd with ChSpec := ⟨.ChInt, 64⟩, Missing := some (.intVal 9223372036854775807) }
  else if tok = str "f" then
    { fd with ChSpec := ⟨.ChFloat, 64⟩, Missing := some .floatMaxVal }
  else
    { fd with ChSpec := ⟨.ChString, fd.ChSpec.Length⟩, Missing := some (.strVal (str "!")) }

/-- The user-supplied-type loop: column ind is assigned from fieldTypes[ind]. -/
def applyFieldTypesList (fieldTypes : List GoStr) (fds : List FieldDef) : List FieldDef :=
  (fieldTypes.zip fds).map (fun p => applyType p.1 p.2)

/-- The header phase of buildReader: with no user-supplied names, rdr.Init
reads the header row and the rename loop runs over its FieldDefs (yielding
`none` on a toCamel panic); with user-supplied names, one ChUnknown
FieldDef is built per name and the key is headers[0]. -/
def headerPhase (env : Env) (camel : Bool) (headers : List GoStr) :
    Option (GoStr × List FieldDef) :=
  if headers.isEmpty then
    match processFieldDefs false camel env.initFds with
    | some fds1 => some (keyAfter fds1 env.initKey, fds1)
    | none => none
  else
    some (headers.headD [], headers.map (fun nm => ⟨nm, ⟨.ChUnknown, 0⟩, none⟩))

/-- Row reads performed by the header phase (rdr.Init consumes the header
row only when names were not supplied). -/
def headerEffects (headers : List GoStr) : List Effect :=
  if headers.isEmpty then [Effect.rowRead] else []

/-- The type phase of buildReader: with no user-supplied types the
inference engine runs at the threshold of the call
rdr.TableSpec().Impute(rdr, 0, 0.95) — the literal 0.95, i.e. 19/20;
otherwise the token list must
have exactly one entry per column (descriptive error if not, returned
before the table is created) and the fixed per-token mapping is applied. -/
def typePhase (env : Env) (fieldTypes : List GoStr) (fds1 : List FieldDef) :
    Except String (List FieldDef) :=
  if fieldTypes.isEmpty then .ok (imputeAll env 19 20 fds1)
  else if fieldTypes.length ≠ fds1.length then
    .error ("supplied field types have length " ++ toString fieldTypes.length ++
      ", data has " ++ toString fds1.length ++ " columns")
  else .ok (applyFieldTypesList fieldTypes fds1)

/-- Row reads performed by the type phase (the inference pass consumes the
data stream). -/
def imputeEffects (fieldTypes : List GoStr) : List Effect :=
  if fieldTypes.isEmpty then [Effect.rowRead] else []

/-- Result of buildReader. -/
inductive BuildResult where
  | ok (td : TableDef)
  | err (msg : String)
  | panicked
  deriving DecidableEq

/-- buildReader creates a reader for chutils.Export, handling the options
regarding field names and types, and creates the destination table as its
last step.  The effect list records, in order: the source open performed by
NewReader (with the skip count actually handed to it), the header-row read
of Init, the stream read of Impute, and the table creation — truncated at
the first failure. -/
def buildReaderModel (env : Env) (source : GoStr) (skip : Int) (camel : Bool)
    (headers fieldTypes : List GoStr) : BuildResult × List Effect :=
  match headerPhase env camel headers with
  | none =>
    (.panicked,
      (if usesHttp source then Effect.openHttp (effSkip headers skip)
        else Effect.openFile (effSkip headers skip)) :: headerEffects headers)
  | some (key, fds1) =>
    match typePhase env fieldTypes fds1 with
    | .error m =>
      (.err m,
        (if usesHttp source then Effect.openHttp (effSkip headers skip)
          else Effect.openFile (effSkip headers skip)) :: headerEffects headers)
    | .ok fds2 =>
      (.ok ⟨key, fds2⟩,
        (if usesHttp source then Effect.openHttp (effSkip headers skip)
          else Effect.openFile (effSkip headers skip)) ::
          (headerEffects headers ++ imputeEffects fieldTypes ++ [Effect.tableCreate]))

/-! ### Export and main (part_000 lines 128-196) -/

/-- Modelled from the spec (sections 4.6 and 7): chutils.Export, which is
not part of this repository's sources.  With row-error tolerance off, the
first failing row write aborts the export with an error; with tolerance on,
failing rows are counted and skipped and the export continues.  The result
is (rows written, rows skipped).  Batch flush boundaries do not affect
per-row tolerance and are not modelled. -/
def chExport (writeOk : List GoStr → Bool) (ignore : Bool) :
    List (List GoStr) → Except String (Nat × Nat)
  | [] => .ok (0, 0)
  | r :: rest =>
    if writeOk r then
      match chExport writeOk ignore rest with
      | .ok (w, sk) => .ok (w + 1, sk)
      | .error m => .error m
    else if ignore then
      match chExport writeOk ignore rest with
      | .ok (w, sk) => .ok (w, sk + 1)
      | .error m => .error m
    else .error "export: write failed"

/-- Outcome of a run of main: normal completion, log.Fatalln (descriptive
message, non-zero exit status), or a Go panic. -/
inductive RunOutcome where
  | completed (written skipped : Nat)
  | fatal (msg : String)
  | panicked
  deriving DecidableEq

/-- The pipeline of main (part_000 lines 128-196): flags, then the
ClickHouse connection, then buildReader, then the export, with the ignore
toggle digested by flags passed through to the export call
(chutils.Export(rdr, wtr, 1000, ignore)).  A flags error is fatal before
any I/O happens; later failures keep the effects performed so far. -/
def mainModel (env : Env) (source : GoStr)
    (sTypeP camelP headerP fieldP quoteP xlRowsP xlColsP : GoStr)
    (skipP : Int) (ignoreP : GoStr) : RunOutcome × List Effect :=
  match flags sTypeP camelP headerP fieldP quoteP xlRowsP xlColsP skipP ignoreP with
  | .err m => (.fatal m, [])
  | .panicked => (.panicked, [])
  | .ok o =>
    match buildReaderModel env source skipP o.camel o.headers o.fieldTypes with
    | (.err m, effs) => (.fatal m, Effect.connect :: effs)
    | (.panicked, effs) => (.panicked, Effect.connect :: effs)
    | (.ok _, effs) =>
      match chExport env.writeOk o.ignore env.sample with
      | .error m => (.fatal m, Effect.connect :: effs)
      | .ok p => (.completed p.1 p.2, Effect.connect :: effs)

/-! ### Shared lemmas -/

/-- A concrete environment used by witnesses: an empty source and a
destination that accepts every row. -/
def envEx : Env :=
  ⟨[], [], [], fun _ => false, fun _ => false, fun _ => false, fun _ => true⟩

theorem goStartsWith_mono (a : GoStr) : ∀ (x b : GoStr),
    goStartsWith x (a ++ b) = true → goStartsWith x a = true := by
  induction a with
  | nil => intro x b _; cases x <;> rfl
  | cons c a' ih =>
    intro x b h
    cases x with
    | nil => simp [goStartsWith] at h
    | cons y x' =>
      simp only [List.cons_append, goStartsWith, Bool.and_eq_true] at h ⊢
      exact ⟨h.1, ih x' b h.2⟩

theorem goContains_of_startsWith (x p : GoStr) (h : goStartsWith x p = true) :
    goContains x p = true := by
  cases x with
  | nil => exact h
  | cons c rest => simp [goContains, h]

theorem build_ok_elim (env : Env) (source : GoStr) (skip : Int) (camel : Bool)
    (headers fieldTypes : List GoStr) (td : TableDef)
    (hok : (buildReaderModel env source skip camel headers fieldTypes).1 = .ok td) :
    ∃ key fds1, headerPhase env camel headers = some (key, fds1) ∧
      typePhase env fieldTypes fds1 = .ok td.FieldDefs ∧ td.Key = key := by
  cases h1 : headerPhase env camel headers with
  | none => simp [buildReaderModel, h1] at hok
  | some v =>
    obtain ⟨key, fds1⟩ := v
    cases h2 : typePhase env fieldTypes fds1 with
    | error m => simp [buildReaderModel, h1, h2] at hok
    | ok fds2 =>
      simp only [buildReaderModel, h1, h2] at hok
      obtain rfl := BuildResult.ok.inj hok
      refine ⟨key, fds1, ?_, ?_, ?_⟩
      · rfl
      · exact h2
      · rfl

theorem typePhase_ok_supplied (env : Env) (fieldTypes : List GoStr)
    (fds1 fds2 : List FieldDef) (hne : fieldTypes ≠ [])
    (h : typePhase env fieldTypes fds1 = .ok fds2) :
    fieldTypes.length = fds1.length ∧ fds2 = applyFieldTypesList fieldTypes fds1 := by
  cases fieldTypes with
  | nil => exact absurd rfl hne
  | cons t ts =>
    simp only [typePhase, List.isEmpty_cons, Bool.false_eq_true, if_false] at h
    by_cases hlen : (t :: ts).length ≠ fds1.length
    · rw [if_pos hlen] at h; cases h
    · rw [if_neg hlen] at h
      exact ⟨not_not.mp hlen, (Except.ok.inj h).symm⟩

theorem typePhase_ok_impute (env : Env) (fds1 fds2 : List FieldDef)
    (h : typePhase env [] fds1 = .ok fds2) : fds2 = imputeAll env 19 20 fds1 := by
  simp only [typePhase, List.isEmpty_nil, if_true] at h
  exact (Except.ok.inj h).symm

theorem applyFieldTypesList_getElem (ts : List GoStr) (fds : List FieldDef) (i : Nat)
    (h1 : i < ts.length) (h2 : i < fds.length) (h3 : i < (applyFieldTypesList ts fds).length) :
    (applyFieldTypesList ts fds)[i] = applyType (ts[i]) (fds[i]) := by
  have hq : (applyFieldTypesList ts fds)[i]? = some (applyType (ts[i]) (fds[i])) := by
    unfold applyFieldTypesList
    rw [List.getElem?_map]
    rw [show (ts.zip fds)[i]? = some (ts[i], fds[i]) from
      List.getElem?_zip_eq_some.mpr ⟨List.getElem?_eq_getElem h1, List.getElem?_eq_getElem h2⟩]
    rfl
  rw [List.getElem?_eq_getElem h3] at hq
  exact Option.some_injective _ hq

theorem processFieldDefs_length (v c : Bool) : ∀ (fds fds' : List FieldDef),
    processFieldDefs v c fds = some fds' → fds'.length = fds.length := by
  intro fds
  induction fds with
  | nil =>
    intro fds' h
    simp only [processFieldDefs, List.mapM_nil] at h
    cases h
    rfl
  | cons a l ih =>
    intro fds' h
    simp only [processFieldDefs, List.mapM_cons] at h
    cases hb : renameFd v c a with
    | none => rw [hb] at h; cases h
    | some b =>
      rw [hb] at h
      cases hbs : l.mapM (renameFd v c) with
      | none => rw [hbs] at h; cases h
      | some bs =>
        rw [hbs] at h
        simp only [Option.pure_def, Option.bind_some] at h
        cases h
        simp only [List.length_cons]
        rw [ih bs hbs]

theorem applyType_name (tok : GoStr) (fd : FieldDef) : (applyType tok fd).Name = fd.Name := by
  unfold applyType
  split
  · rfl
  · split
    · rfl
    · split <;> rfl

theorem map_name_applyFieldTypesList : ∀ (ts : List GoStr) (fds : List FieldDef),
    ts.length = fds.length →
    (applyFieldTypesList ts fds).map FieldDef.Name = fds.map FieldDef.Name := by
  intro ts
  induction ts with
  | nil =>
    intro fds h
    cases fds with
    | nil => rfl
    | cons f fs => cases h
  | cons t ts ih =>
    intro fds h
    cases fds with
    | nil => cases h
    | cons f fs =>
      simp only [applyFieldTypesList, List.zip_cons_cons, List.map_cons, applyType_name]
      have := ih fs (by simpa using h)
      simp only [applyFieldTypesList] at this
      rw [this]

theorem map_name_imputeAll (env : Env) (thrNum thrDen : Nat) (fds : List FieldDef) :
    (imputeAll env thrNum thrDen fds).map FieldDef.Name = fds.map FieldDef.Name := by
  apply List.ext_getElem
  · simp [imputeAll]
  · intro i h1 h2
    simp [imputeAll]

/-- The non-empty cells the inference engine counts for column `i`. -/
def neCells (env : Env) (i : Nat) : List GoStr :=
  (colCells env.sample i).filter (fun c => !c.isEmpty)

theorem thr_nat (cnt n : Nat) :
    ((0.95 : ℚ) * (n : ℚ) ≤ (cnt : ℚ)) ↔ (19 * n ≤ 20 * cnt) := by
  rw [show (0.95 : ℚ) = 19 / 20 by norm_num, div_mul_eq_mul_div,
    div_le_iff₀ (by norm_num : (0 : ℚ) < 20)]
  constructor
  · intro h
    have h' : (19 * n : ℚ) ≤ 20 * cnt := by linarith
    exact_mod_cast h'
  · intro h
    have h' : (19 * n : ℚ) ≤ 20 * cnt := by exact_mod_cast h
    linarith

theorem imputeColumn_spec (dateOk intOk floatOk : GoStr → Bool) (cells : List GoStr) :
    (imputeColumn dateOk intOk floatOk 19 20 cells = .ChDate →
      0 < (cells.filter (fun c => !c.isEmpty)).length ∧
      19 * (cells.filter (fun c => !c.isEmpty)).length ≤
        20 * ((cells.filter (fun c => !c.isEmpty)).filter dateOk).length) ∧
    (imputeColumn dateOk intOk floatOk 19 20 cells = .ChInt →
      0 < (cells.filter (fun c => !c.isEmpty)).length ∧
      19 * (cells.filter (fun c => !c.isEmpty)).length ≤
        20 * ((cells.filter (fun c => !c.isEmpty)).filter intOk).length) ∧
    (imputeColumn dateOk intOk floatOk 19 20 cells = .ChFloat →
      0 < (cells.filter (fun c => !c.isEmpty)).length ∧
      19 * (cells.filter (fun c => !c.isEmpty)).length ≤
        20 * ((cells.filter (fun c => !c.isEmpty)).filter floatOk).length) ∧
    (¬(0 < (cells.filter (fun c => !c.isEmpty)).length ∧
        19 * (cells.filter (fun c => !c.isEmpty)).length ≤
          20 * ((cells.filter (fun c => !c.isEmpty)).filter dateOk).length) →
     ¬(0 < (cells.filter (fun c => !c.isEmpty)).length ∧
        19 * (cells.filter (fun c => !c.isEmpty)).length ≤
          20 * ((cells.filter (fun c => !c.isEmpty)).filter intOk).length) →
     ¬(0 < (cells.filter (fun c => !c.isEmpty)).length ∧
        19 * (cells.filter (fun c => !c.isEmpty)).length ≤
          20 * ((cells.filter (fun c => !c.isEmpty)).filter floatOk).length) →
      imputeColumn dateOk intOk floatOk 19 20 cells = .ChString) := by
  unfold imputeColumn
  split
  next h1 =>
    refine ⟨fun _ => ⟨h1.1, h1.2⟩, fun habs => ?_, fun habs => ?_,
      fun hnd _ _ => absurd ⟨h1.1, h1.2⟩ hnd⟩
    · exact ChType.noConfusion habs
    · exact ChType.noConfusion habs
  next h1 =>
    split
    next h2 =>
      refine ⟨fun habs => ?_, fun _ => ⟨h2.1, h2.2⟩, fun habs => ?_,
        fun _ hni _ => absurd ⟨h2.1, h2.2⟩ hni⟩
      · exact ChType.noConfusion habs
      · exact ChType.noConfusion habs
    next h2 =>
      split
      next h3 =>
        refine ⟨fun habs => ?_, fun habs => ?_, fun _ => ⟨h3.1, h3.2⟩,
          fun _ _ hnf => absurd ⟨h3.1, h3.2⟩ hnf⟩
        · exact ChType.noConfusion habs
        · exact ChType.noConfusion habs
      next h3 =>
        refine ⟨fun habs => ?_, fun habs => ?_, fun habs => ?_, fun _ _ _ => rfl⟩
        · exact ChType.noConfusion habs
        · exact ChType.noConfusion habs
        · exact ChType.noConfusion habs

/-! ### toCamel termination and panic lemmas -/

theorem isSep_ofNat_upper (n : Nat) (h1 : 65 ≤ n) (h2 : n ≤ 90) :
    isSep (Char.ofNat n) = false := by
  interval_cases n <;> decide

theorem isSep_ofNat_lower (n : Nat) (h1 : 97 ≤ n) (h2 : n ≤ 122) :
    isSep (Char.ofNat n) = false := by
  interval_cases n <;> decide

theorem goUpperChar_of_sep (c : Char) (h : isSep c = true) : goUpperChar c = c := by
  have : c = '.' ∨ c = '_' := by
    rcases Bool.or_eq_true_iff.mp h with h' | h'
    · exact Or.inl (eq_of_beq h')
    · exact Or.inr (eq_of_beq h')
  rcases this with rfl | rfl <;> decide

theorem goLowerChar_of_sep (c : Char) (h : isSep c = true) : goLowerChar c = c := by
  have : c = '.' ∨ c = '_' := by
    rcases Bool.or_eq_true_iff.mp h with h' | h'
    · exact Or.inl (eq_of_beq h')
    · exact Or.inr (eq_of_beq h')
  rcases this with rfl | rfl <;> decide

theorem isSep_goUpperChar_of_not (c : Char) (h : isSep c = false) :
    isSep (goUpperChar c) = false := by
  unfold goUpperChar
  split
  next hr => exact isSep_ofNat_upper (c.toNat - 32) (by omega) (by omega)
  next hr => exact h

theorem isSep_goLowerChar_of_not (c : Char) (h : isSep c = false) :
    isSep (goLowerChar c) = false := by
  unfold goLowerChar
  split
  next hr => exact isSep_ofNat_lower (c.toNat + 32) (by omega) (by omega)
  next hr => exact h

theorem findSep_eq_none (s : GoStr) (h : findSep s = none) : ∀ c ∈ s, isSep c = false := by
  induction s with
  | nil => intro c hc; cases hc
  | cons a l ih =>
    intro c hc
    unfold findSep at h
    by_cases ha : isSep a = true
    · rw [if_pos ha] at h; cases h
    · rw [if_neg ha] at h
      have hl : findSep l = none := by
        cases hfl : findSep l with
        | none => rfl
        | some j => rw [hfl] at h; cases h
      cases hc with
      | head => simpa using ha
      | tail _ hcl => exact ih hl c hcl

theorem findSep_decomp : ∀ (s : GoStr) (ind : Nat), findSep s = some ind →
    ∃ pre c post, s = pre ++ c :: post ∧ pre.length = ind ∧ isSep c = true ∧
      ∀ x ∈ pre, isSep x = false := by
  intro s
  induction s with
  | nil => intro ind h; cases h
  | cons a l ih =>
    intro ind h
    unfold findSep at h
    by_cases ha : isSep a = true
    · rw [if_pos ha] at h
      obtain rfl := Option.some.inj h
      exact ⟨[], a, l, rfl, rfl, ha, by intro x hx; cases hx⟩
    · rw [if_neg ha] at h
      cases hfl : findSep l with
      | none => rw [hfl] at h; cases h
      | some j =>
        rw [hfl, Option.map_some'] at h
        obtain rfl := Option.some.inj h
        obtain ⟨pre, c, post, rfl, hlen, hc, hpre⟩ := ih j hfl
        refine ⟨a :: pre, c, post, rfl, by simp [hlen], hc, ?_⟩
        intro x hx
        cases hx with
        | head => simpa using ha
        | tail _ hx' => exact hpre x hx'

theorem findSep_append (pre : GoStr) (hpre : ∀ x ∈ pre, isSep x = false) (c : Char)
    (hc : isSep c = true) (rest : GoStr) :
    findSep (pre ++ c :: rest) = some pre.length := by
  induction pre with
  | nil => simp [findSep, hc]
  | cons x pre' ih =>
    have hx : isSep x = false := hpre x (List.mem_cons_self _ _)
    have ih' := ih (fun y hy => hpre y (List.mem_cons_of_mem _ hy))
    simp [findSep, hx, ih']

theorem goStartsWith_nil (s : GoStr) : goStartsWith s [] = true := by
  cases s <;> rfl

theorem goReplaceFirst_at_first_sep : ∀ (pre : GoStr), (∀ x ∈ pre, isSep x = false) →
    ∀ (c d : Char), isSep c = true → ∀ (post new : GoStr),
    goReplaceFirst (pre ++ c :: d :: post) [c, d] new = pre ++ (new ++ post) := by
  intro pre
  induction pre with
  | nil =>
    intro _ c d hc post new
    have hs : goStartsWith (c :: d :: post) [c, d] = true := by
      simp [goStartsWith, goStartsWith_nil]
    show goReplaceFirst (c :: d :: post) [c, d] new = new ++ post
    unfold goReplaceFirst
    rw [if_pos hs]
    rfl
  | cons x pre' ih =>
    intro hpre c d hc post new
    have hx : isSep x = false := hpre x (List.mem_cons_self _ _)
    have hxc : (x == c) = false := by
      refine beq_eq_false_iff_ne.mpr ?_
      intro hxy
      rw [hxy, hc] at hx
      cases hx
    have hs : goStartsWith (x :: (pre' ++ c :: d :: post)) [c, d] = false := by
      simp [goStartsWith, hxc]
    show goReplaceFirst (x :: (pre' ++ c :: d :: post)) [c, d] new =
      x :: (pre' ++ (new ++ post))
    unfold goReplaceFirst
    rw [if_neg (by simp [hs])]
    exact congrArg (x :: ·) (ih (fun y hy => hpre y (List.mem_cons_of_mem _ hy)) c d hc post new)

theorem get_append_len : ∀ (pre : GoStr) (c : Char) (rest : GoStr)
    (h : pre.length < (pre ++ c :: rest).length),
    (pre ++ c :: rest).get ⟨pre.length, h⟩ = c := by
  intro pre
  induction pre with
  | nil => intro c rest h; rfl
  | cons x pre' ih => intro c rest h; exact ih c rest _

theorem get_append_len_succ : ∀ (pre : GoStr) (c d : Char) (rest : GoStr)
    (h : pre.length + 1 < (pre ++ c :: d :: rest).length),
    (pre ++ c :: d :: rest).get ⟨pre.length + 1, h⟩ = d := by
  intro pre
  induction pre with
  | nil => intro c d rest h; rfl
  | cons x pre' ih => intro c d rest h; exact ih c d rest _

theorem toCamelLoop_step (fuel : Nat) (pre : GoStr) (hpre : ∀ x ∈ pre, isSep x = false)
    (c d : Char) (hc : isSep c = true) (post : GoStr) :
    toCamelLoop (fuel + 1) (pre ++ c :: d :: post) =
      toCamelLoop fuel (pre ++ goUpperChar d :: post) := by
  have hfs : findSep (pre ++ c :: d :: post) = some pre.length :=
    findSep_append pre hpre c hc (d :: post)
  have hlen : pre.length + 2 ≤ (pre ++ c :: d :: post).length := by
    simp [List.length_append]
  simp only [toCamelLoop, hfs]
  rw [dif_pos hlen]
  rw [get_append_len pre c (d :: post) (by omega)]
  rw [get_append_len_succ pre c d post (by omega)]
  rw [show goToUpperStr [d] = [goUpperChar d] from rfl]
  rw [goReplaceFirst_at_first_sep pre hpre c d hc post [goUpperChar d]]
  rfl

theorem getLast?_append_cons (l : GoStr) (x : Char) (l' : GoStr) :
    (l ++ x :: l').getLast? = (x :: l').getLast? := by
  rw [List.getLast?_append]
  cases h : (x :: l').getLast? with
  | none => rw [List.getLast?_eq_none_iff] at h; cases h
  | some y => rfl

theorem toCamelLoop_ok : ∀ (fuel : Nat) (s : GoStr), s.length < fuel →
    (∀ c, s.getLast? = some c → isSep c = false) →
    ∃ t, toCamelLoop fuel s = .ok t ∧ ∀ x ∈ t, isSep x = false := by
  intro fuel
  induction fuel with
  | zero => intro s h _; exact absurd h (Nat.not_lt_zero _)
  | succ f ih =>
    intro s hlen hlast
    cases hfs : findSep s with
    | none =>
      exact ⟨s, by simp [toCamelLoop, hfs], findSep_eq_none s hfs⟩
    | some ind =>
      obtain ⟨pre, c, post0, rfl, hplen, hc, hpre⟩ := findSep_decomp _ ind hfs
      cases post0 with
      | nil =>
        exfalso
        have hgl : (pre ++ [c]).getLast? = some c := List.getLast?_concat pre
        have hcf := hlast c hgl
        rw [hcf] at hc
        cases hc
      | cons d post =>
        rw [toCamelLoop_step f pre hpre c d hc post]
        have hlen' : (pre ++ goUpperChar d :: post).length < f := by
          simp only [List.length_append, List.length_cons] at hlen ⊢
          omega
        have hlast' : ∀ c', (pre ++ goUpperChar d :: post).getLast? = some c' →
            isSep c' = false := by
          intro c' hc'
          cases post with
          | nil =>
            have hgl : (pre ++ [goUpperChar d]).getLast? = some (goUpperChar d) :=
              List.getLast?_concat pre
            rw [hgl] at hc'
            obtain rfl := Option.some.inj hc'
            have hdlast : (pre ++ c :: d :: ([] : GoStr)).getLast? = some d := by
              rw [getLast?_append_cons]; simp
            exact isSep_goUpperChar_of_not d (hlast d hdlast)
          | cons p ps =>
            have h1 : (pre ++ goUpperChar d :: p :: ps).getLast? = (p :: ps).getLast? := by
              rw [getLast?_append_cons, List.getLast?_cons_cons]
            have h2 : (pre ++ c :: d :: p :: ps).getLast? = (p :: ps).getLast? := by
              rw [getLast?_append_cons, List.getLast?_cons_cons, List.getLast?_cons_cons]
            exact hlast c' (by rw [h2, ← h1]; exact hc')
        exact ih (pre ++ goUpperChar d :: post) hlen' hlast'

theorem toCamelLoop_panics : ∀ (fuel : Nat) (s : GoStr), s.length < fuel →
    ∀ c0, s.getLast? = some c0 → isSep c0 = true → toCamelLoop fuel s = .panicked := by
  intro fuel
  induction fuel with
  | zero => intro s h _ _ _; exact absurd h (Nat.not_lt_zero _)
  | succ f ih =>
    intro s hlen c0 hc0 hsep
    cases hfs : findSep s with
    | none =>
      exfalso
      have hmem := List.mem_of_getLast?_eq_some hc0
      have hcf := findSep_eq_none s hfs c0 hmem
      rw [hcf] at hsep
      cases hsep
    | some ind =>
      obtain ⟨pre, c, post0, rfl, hplen, hc, hpre⟩ := findSep_decomp _ ind hfs
      cases post0 with
      | nil =>
        simp only [toCamelLoop, hfs]
        rw [dif_neg (by
          simp only [List.length_append, List.length_cons, List.length_nil]
          omega)]
      | cons d post =>
        rw [toCamelLoop_step f pre hpre c d hc post]
        have hlen' : (pre ++ goUpperChar d :: post).length < f := by
          simp only [List.length_append, List.length_cons] at hlen ⊢
          omega
        cases post with
        | nil =>
          have hdlast : (pre ++ c :: d :: ([] : GoStr)).getLast? = some d := by
            rw [getLast?_append_cons]; simp
          have hcd : c0 = d := by
            rw [hdlast] at hc0
            exact (Option.some.inj hc0).symm
          have hsepd : isSep d = true := by rw [← hcd]; exact hsep
          apply ih _ hlen' (goUpperChar d)
          · exact List.getLast?_concat pre
          · rw [goUpperChar_of_sep d hsepd]
            exact hsepd
        | cons p ps =>
          have h1 : (pre ++ goUpperChar d :: p :: ps).getLast? = (p :: ps).getLast? := by
            rw [getLast?_append_cons, List.getLast?_cons_cons]
          have h2 : (pre ++ c :: d :: p :: ps).getLast? = (p :: ps).getLast? := by
            rw [getLast?_append_cons, List.getLast?_cons_cons, List.getLast?_cons_cons]
          apply ih _ hlen' c0
          · rw [h1, ← h2]; exact hc0
          · exact hsep

theorem toCamelGo_last (snake : GoStr) :
    (goToLowerStr (goSwapAll ' ' '_' snake)).getLast? =
      (snake.getLast?).map (fun c => goLowerChar (if c == ' ' then '_' else c)) := by
  unfold goToLowerStr goSwapAll
  rw [List.getLast?_map, List.getLast?_map]
  cases snake.getLast? <;> rfl

theorem processFieldDefs_no_camel (v : Bool) : ∀ (fds : List FieldDef),
    ∃ fds', processFieldDefs v false fds = some fds' := by
  intro fds
  induction fds with
  | nil => exact ⟨[], rfl⟩
  | cons a l ih =>
    obtain ⟨fds', hl⟩ := ih
    have ha : ∃ b, renameFd v false a = some b := by
      simp only [renameFd, camelStage, Bool.false_eq_true, if_false]
      by_cases hr : reserved.contains (goToLowerStr a.Name) = true
      · exact ⟨_, by rw [if_pos hr]⟩
      · exact ⟨_, by rw [if_neg hr]⟩
    obtain ⟨b, hb⟩ := ha
    refine ⟨b :: fds', ?_⟩
    simp only [processFieldDefs, List.mapM_cons] at hl ⊢
    rw [hb, hl]
    rfl

theorem build_mismatch_err (env : Env) (source : GoStr) (skip : Int) (camel : Bool)
    (headers fieldTypes : List GoStr) (key : GoStr) (fds1 : List FieldDef)
    (hhp : headerPhase env camel headers = some (key, fds1))
    (hne : fieldTypes ≠ []) (hlen : fieldTypes.length ≠ fds1.length) :
    ∃ m effs,
      buildReaderModel env source skip camel headers fieldTypes = (.err m, effs) ∧
        Effect.tableCreate ∉ effs := by
  have htp : typePhase env fieldTypes fds1 =
      .error ("supplied field types have length " ++ toString fieldTypes.length ++
        ", data has " ++ toString fds1.length ++ " columns") := by
    cases fieldTypes with
    | nil => exact absurd rfl hne
    | cons t ts =>
      simp only [typePhase, List.isEmpty_cons, Bool.false_eq_true, if_false]
      rw [if_pos hlen]
  refine ⟨("supplied field types have length " ++ toString fieldTypes.length ++
      ", data has " ++ toString fds1.length ++ " columns"),
    (if usesHttp source then Effect.openHttp (effSkip headers skip)
      else Effect.openFile (effSkip headers skip)) :: headerEffects headers, ?_, ?_⟩
  · simp only [buildReaderModel, hhp, htp]
  · cases h : usesHttp source <;> cases headers <;> simp [headerEffects, h]

end Toch

open Toch

/-- C1: when the caller supplies field types, buildReader sets each column's
semantic type and illegal-value sentinel per the fixed mapping, column by
column in schema order: token "f" gives Float64 with sentinel
math.MaxFloat64, "i" gives Int64 with sentinel 9223372036854775807, "d"
gives Date with sentinel 1970-01-01 UTC midnight, and any other valid token
("s") gives String with sentinel "!". -/
theorem C1_supplied_type_mapping (env : Env) (source : GoStr) (skip : Int) (camel : Bool)
    (headers fieldTypes : List GoStr) (td : TableDef)
    (hok : (buildReaderModel env source skip camel headers fieldTypes).1 = .ok td)
    (hne : fieldTypes ≠ []) (i : Nat) (hi : i < fieldTypes.length)
    (hfd : i < td.FieldDefs.length) :
    (fieldTypes[i] = str "f" →
      (td.FieldDefs[i]).ChSpec.Base = .ChFloat ∧
      (td.FieldDefs[i]).ChSpec.Length = 64 ∧
      (td.FieldDefs[i]).Missing = some .floatMaxVal) ∧
    (fieldTypes[i] = str "i" →
      (td.FieldDefs[i]).ChSpec.Base = .ChInt ∧
      (td.FieldDefs[i]).ChSpec.Length = 64 ∧
      (td.FieldDefs[i]).Missing = some (.intVal 9223372036854775807)) ∧
    (fieldTypes[i] = str "d" →
      (td.FieldDefs[i]).ChSpec.Base = .ChDate ∧
      (td.FieldDefs[i]).Missing = some (.dateVal 1970 1 1)) ∧
    (fieldTypes[i] ≠ str "f" → fieldTypes[i] ≠ str "i" → fieldTypes[i] ≠ str "d" →
      (td.FieldDefs[i]).ChSpec.Base = .ChString ∧
      (td.FieldDefs[i]).Missing = some (.strVal (str "!"))) := by
  obtain ⟨key, fds1, h1, h2, hkey⟩ := build_ok_elim env source skip camel headers fieldTypes td hok
  obtain ⟨hlen, happ⟩ := typePhase_ok_supplied env fieldTypes fds1 td.FieldDefs hne h2
  have hifds : i < fds1.length := hlen ▸ hi
  have hget : (td.FieldDefs[i]) = applyType (fieldTypes[i]) (fds1[i]) := by
    have h3 : i < (applyFieldTypesList fieldTypes fds1).length := happ ▸ hfd
    calc (td.FieldDefs[i]) = (applyFieldTypesList fieldTypes fds1)[i] := by
          congr 1
      _ = applyType (fieldTypes[i]) (fds1[i]) :=
          applyFieldTypesList_getElem fieldTypes fds1 i hi hifds h3
  rw [hget]
  refine ⟨fun hf => ?_, fun hi' => ?_, fun hd => ?_, fun hf hi' hd => ?_⟩
  · rw [hf]; simp [applyType, str]
  · rw [hi']; simp [applyType, str]
  · rw [hd]; simp [applyType, str]
  · simp [applyType, if_neg hd, if_neg hi', if_neg hf]

/-- C1 witness: a two-column build with supplied types "i" and "s" realizes
the mapping — the first column of the resolved table is Int64. -/
theorem C1_witness :
    (⟨str "a", [⟨str "a", ⟨.ChInt, 64⟩, some (.intVal 9223372036854775807)⟩,
      ⟨str "b", ⟨.ChString, 0⟩, some (.strVal (str "!"))⟩]⟩ : TableDef).FieldDefs[0].ChSpec.Base
      = .ChInt :=
  ((C1_supplied_type_mapping envEx (str "x.csv") 0 false [str "a", str "b"]
    [str "i", str "s"]
    ⟨str "a", [⟨str "a", ⟨.ChInt, 64⟩, some (.intVal 9223372036854775807)⟩,
      ⟨str "b", ⟨.ChString, 0⟩, some (.strVal (str "!"))⟩]⟩
    (by decide) (by decide) 0 (by decide) (by decide)).2.1 (by decide)).1

/-- C2: when the caller supplies no field types, buildReader resolves each
column's type by the inference engine invoked at acceptance threshold
exactly 0.95, so a column receives a non-String type only when at least
95 percent of its non-empty sampled cells parse under that type (expressed
as 19·total ≤ 20·successes), and otherwise falls back to String. -/
theorem C2_impute_threshold (env : Env) (source : GoStr) (skip : Int) (camel : Bool)
    (headers : List GoStr) (td : TableDef)
    (hok : (buildReaderModel env source skip camel headers []).1 = .ok td)
    (i : Nat) (hfd : i < td.FieldDefs.length) :
    (∀ succ total : Nat, ((0.95 : ℚ) * total ≤ succ) ↔ 19 * total ≤ 20 * succ) ∧
    ((td.FieldDefs[i]).ChSpec.Base =
      imputeColumn env.dateOk env.intOk env.floatOk 19 20 (colCells env.sample i)) ∧
    ((td.FieldDefs[i]).ChSpec.Base = .ChDate →
      0 < (neCells env i).length ∧
      19 * (neCells env i).length ≤ 20 * ((neCells env i).filter env.dateOk).length) ∧
    ((td.FieldDefs[i]).ChSpec.Base = .ChInt →
      0 < (neCells env i).length ∧
      19 * (neCells env i).length ≤ 20 * ((neCells env i).filter env.intOk).length) ∧
    ((td.FieldDefs[i]).ChSpec.Base = .ChFloat →
      0 < (neCells env i).length ∧
      19 * (neCells env i).length ≤ 20 * ((neCells env i).filter env.floatOk).length) ∧
    (¬(0 < (neCells env i).length ∧
        19 * (neCells env i).length ≤ 20 * ((neCells env i).filter env.dateOk).length) →
     ¬(0 < (neCells env i).length ∧
        19 * (neCells env i).length ≤ 20 * ((neCells env i).filter env.intOk).length) →
     ¬(0 < (neCells env i).length ∧
        19 * (neCells env i).length ≤ 20 * ((neCells env i).filter env.floatOk).length) →
      (td.FieldDefs[i]).ChSpec.Base = .ChString) := by
  obtain ⟨key, fds1, h1, h2, hkey⟩ := build_ok_elim env source skip camel headers [] td hok
  have himp : td.FieldDefs = imputeAll env 19 20 fds1 :=
    typePhase_ok_impute env fds1 td.FieldDefs h2
  have hlen : td.FieldDefs.length = fds1.length := by
    rw [himp]; simp [imputeAll]
  have hi1 : i < fds1.length := hlen ▸ hfd
  have hrec : (td.FieldDefs[i]) =
      { fds1[i] with ChSpec := ⟨imputeColumn env.dateOk env.intOk env.floatOk 19 20
          (colCells env.sample i), (fds1[i]).ChSpec.Length⟩ } := by
    have h3 : i < (imputeAll env 19 20 fds1).length := by simpa [imputeAll] using hi1
    calc (td.FieldDefs[i]) = (imputeAll env 19 20 fds1)[i] := by congr 1
      _ = _ := by simp [imputeAll]
  rw [hrec]
  exact ⟨fun succ total => thr_nat succ total, rfl,
    (imputeColumn_spec env.dateOk env.intOk env.floatOk (colCells env.sample i)).1,
    (imputeColumn_spec env.dateOk env.intOk env.floatOk (colCells env.sample i)).2.1,
    (imputeColumn_spec env.dateOk env.intOk env.floatOk (colCells env.sample i)).2.2.1,
    (imputeColumn_spec env.dateOk env.intOk env.floatOk (colCells env.sample i)).2.2.2⟩

/-- C2 concrete environment: one data row whose single cell parses only as
an integer. -/
def envC2 : Env :=
  ⟨[], [], [[str "1"]], fun _ => false, fun s => s == str "1", fun _ => false, fun _ => true⟩

/-- C2 witness: over a sample whose only non-empty cell parses as Int64,
the inferred column is Int64 and the 95 percent bound is realized. -/
theorem C2_witness :
    0 < (neCells envC2 0).length ∧
      19 * (neCells envC2 0).length ≤ 20 * ((neCells envC2 0).filter envC2.intOk).length :=
  (C2_impute_threshold envC2 (str "x.csv") 0 false [str "x"]
    ⟨str "x", [⟨str "x", ⟨.ChInt, 0⟩, none⟩]⟩ (by decide) 0 (by decide)).2.2.2.1 (by decide)

/-- C3: supplying header names and field types of differing lengths is
rejected by flags with a descriptive error before any effect — in
particular before any row is read; and a supplied field-type list whose
length differs from the resolved schema's column count makes buildReader
fail with a descriptive error without ever creating the destination
table.  The second part holds for any successfully resolved header phase
(names supplied with -h or read from the file), and the third part states
the reachable header-read case directly: with -h absent the columns come
from the file's header row, and a -t list of a different length is
rejected before the table is created. -/
theorem C3_schema_length_mismatch :
    (∀ (env : Env) (source sTypeP camelP headerP fieldP quoteP xlRowsP xlColsP : GoStr)
        (skipP : Int) (ignoreP : GoStr),
      isIn sTypeP types = true → isIn camelP ctypes = true → isIn ignoreP ctypes = true →
      quoteP ≠ [] →
      (∀ f ∈ parseFieldTypeList fieldP, isIn f ftypes = true) →
      (parseHeaderList headerP).length ≠ (parseFieldTypeList fieldP).length →
      0 < (parseHeaderList headerP).length →
      0 < (parseFieldTypeList fieldP).length →
      mainModel env source sTypeP camelP headerP fieldP quoteP xlRowsP xlColsP skipP ignoreP =
        (.fatal "-h headers and -t field types must have same length", [])) ∧
    (∀ (env : Env) (source : GoStr) (skip : Int) (camel : Bool)
        (headers fieldTypes : List GoStr) (key : GoStr) (fds1 : List FieldDef),
      headerPhase env camel headers = some (key, fds1) →
      fieldTypes ≠ [] → fieldTypes.length ≠ fds1.length →
      ∃ m effs,
        buildReaderModel env source skip camel headers fieldTypes = (.err m, effs) ∧
          Effect.tableCreate ∉ effs) ∧
    (∀ (env : Env) (source : GoStr) (skip : Int) (fieldTypes : List GoStr),
      fieldTypes ≠ [] → fieldTypes.length ≠ env.initFds.length →
      ∃ m effs,
        buildReaderModel env source skip false [] fieldTypes = (.err m, effs) ∧
          Effect.tableCreate ∉ effs) := by
  refine ⟨?_, ?_, ?_⟩
  · intro env source sTypeP camelP headerP fieldP quoteP xlRowsP xlColsP skipP ignoreP
      h1 h2 h3 hq hall hne hp1 hp2
    obtain ⟨qc, qrest, rfl⟩ : ∃ qc qrest, quoteP = qc :: qrest := by
      cases quoteP with
      | nil => exact absurd rfl hq
      | cons a l => exact ⟨a, l, rfl⟩
    have hfind : (parseFieldTypeList fieldP).find? (fun f => !(isIn f ftypes)) = none :=
      List.find?_eq_none.mpr (by intro x hx; simp [hall x hx])
    have hflags : flags sTypeP camelP headerP fieldP (qc :: qrest) xlRowsP xlColsP skipP ignoreP =
        .err "-h headers and -t field types must have same length" := by
      simp only [flags, h1, h2, h3, Bool.not_true, Bool.false_eq_true, if_false, hfind]
      rw [if_pos ⟨hne, hp1, hp2⟩]
    simp [mainModel, hflags]
  · intro env source skip camel headers fieldTypes key fds1 hhp hne hlen
    exact build_mismatch_err env source skip camel headers fieldTypes key fds1 hhp hne hlen
  · intro env source skip fieldTypes hne hlen
    obtain ⟨fds', hp⟩ := processFieldDefs_no_camel false env.initFds
    have hhp : headerPhase env false [] = some (keyAfter fds' env.initKey, fds') := by
      simp [headerPhase, hp]
    have hlen' : fieldTypes.length ≠ fds'.length := by
      rw [processFieldDefs_length false false env.initFds fds' hp]
      exact hlen
    exact build_mismatch_err env source skip false [] fieldTypes
      (keyAfter fds' env.initKey) fds' hhp hne hlen'

/-- C3 concrete environment for the header-read path: the file's header
row yields three columns a, b, c. -/
def envC3 : Env :=
  ⟨[⟨str "a", ⟨.ChString, 0⟩, none⟩, ⟨str "b", ⟨.ChString, 0⟩, none⟩,
    ⟨str "c", ⟨.ChString, 0⟩, none⟩], str "a", [],
    fun _ => false, fun _ => false, fun _ => false, fun _ => true⟩

/-- C3 witness: three header names with two type tokens is rejected by
flags with no effect performed; and a two-token type list against a
three-column schema — whether the columns were supplied with -h or read
from the file's header row — leaves the table uncreated. -/
theorem C3_witness :
    (mainModel envEx (str "x.csv") (str "csv") (str "n") (str "a,b,c") (str "s,s")
        (str "Q") (str "0:0") (str "0:0") 0 (str "n") =
      (.fatal "-h headers and -t field types must have same length", [])) ∧
    (∃ m effs,
      buildReaderModel envEx (str "x.csv") 0 false [str "a", str "b", str "c"]
          [str "s", str "s"] = (.err m, effs) ∧ Effect.tableCreate ∉ effs) ∧
    (∃ m effs,
      buildReaderModel envC3 (str "x.csv") 0 false [] [str "s", str "s"] =
        (.err m, effs) ∧ Effect.tableCreate ∉ effs) :=
  ⟨C3_schema_length_mismatch.1 envEx (str "x.csv") (str "csv") (str "n") (str "a,b,c")
      (str "s,s") (str "Q") (str "0:0") (str "0:0") 0 (str "n")
      (by decide) (by decide) (by decide) (by decide) (by decide) (by decide)
      (by decide) (by decide),
    C3_schema_length_mismatch.2.1 envEx (str "x.csv") 0 false
      [str "a", str "b", str "c"] [str "s", str "s"] (str "a")
      ([str "a", str "b", str "c"].map (fun nm => ⟨nm, ⟨.ChUnknown, 0⟩, none⟩))
      (by decide) (by decide) (by decide),
    C3_schema_length_mismatch.2.2 envC3 (str "x.csv") 0 [str "s", str "s"]
      (by decide) (by decide)⟩

/-- C6: in the header-reading path, every column name accepted by the
reserved-word membership check gets the suffix "1" appended (and names that
fail the check are stored without it), and the schema key is set to the
final post-camel-conversion post-rename name of the first column, so after
header processing the key is the name of an existing column definition.
The `variant1` flag selects between the toch.go revision (which stores the
lower-cased name) and the part_000 revision (which stores it unchanged). -/
theorem C6_reserved_rename_and_key (variant1 camel : Bool) :
    (∀ (env : Env) (source : GoStr) (skip : Int) (fieldTypes : List GoStr) (td : TableDef),
      env.initFds ≠ [] →
      (buildReaderModel env source skip camel [] fieldTypes).1 = .ok td →
      td.Key ∈ td.FieldDefs.map FieldDef.Name) ∧
    (∀ (fd fd' : FieldDef), renameFd variant1 camel fd = some fd' →
      ∃ n1, camelStage camel fd.Name = .ok n1 ∧
        ((reserved.contains (goToLowerStr n1) = true ∧
            fd'.Name = (if variant1 then goToLowerStr n1 else n1) ++ str "1") ∨
         (reserved.contains (goToLowerStr n1) = false ∧
            fd'.Name = (if variant1 then goToLowerStr n1 else n1)))) := by
  constructor
  · intro env source skip fieldTypes td hinit hok
    obtain ⟨key, fds1, h1, h2, hkey⟩ :=
      build_ok_elim env source skip camel [] fieldTypes td hok
    cases hp : processFieldDefs false camel env.initFds with
    | none =>
      simp only [headerPhase, List.isEmpty_nil, if_true, hp] at h1
      exact Option.noConfusion h1
    | some fds1' =>
      simp only [headerPhase, List.isEmpty_nil, if_true, hp, Option.some.injEq,
        Prod.mk.injEq] at h1
      obtain ⟨hkeyeq, rfl⟩ := h1
      have hlen1 : fds1'.length = env.initFds.length :=
        processFieldDefs_length false camel env.initFds fds1' hp
      have hne1 : fds1' ≠ [] := by
        intro hnil
        rw [hnil] at hlen1
        exact hinit (List.eq_nil_of_length_eq_zero hlen1.symm)
      obtain ⟨f, rest, rfl⟩ : ∃ f rest, fds1' = f :: rest := by
        cases fds1' with
        | nil => exact absurd rfl hne1
        | cons f rest => exact ⟨f, rest, rfl⟩
      have hnames : td.FieldDefs.map FieldDef.Name = (f :: rest).map FieldDef.Name := by
        cases fieldTypes with
        | nil =>
          rw [typePhase_ok_impute env (f :: rest) td.FieldDefs h2]
          exact map_name_imputeAll env 19 20 (f :: rest)
        | cons t ts =>
          obtain ⟨hlen, happ⟩ := typePhase_ok_supplied env (t :: ts) (f :: rest)
            td.FieldDefs (by simp) h2
          rw [happ]
          exact map_name_applyFieldTypesList (t :: ts) (f :: rest) hlen
      rw [hnames, hkey, ← hkeyeq]
      exact List.mem_cons_self _ _
  · intro fd fd' h
    cases hc : camelStage camel fd.Name with
    | ok n1 =>
      simp only [renameFd, hc] at h
      by_cases hr : reserved.contains (goToLowerStr n1) = true
      · rw [if_pos hr] at h
        obtain rfl := Option.some.inj h
        exact ⟨n1, rfl, Or.inl ⟨hr, rfl⟩⟩
      · rw [if_neg hr] at h
        obtain rfl := Option.some.inj h
        refine ⟨n1, rfl, Or.inr ⟨?_, rfl⟩⟩
        simpa using hr
    | panicked => simp [renameFd, hc] at h
    | fuelOut => simp [renameFd, hc] at h

/-- C6 concrete environment: the header row yields the single reserved
name "index". -/
def envC6 : Env :=
  ⟨[⟨str "index", ⟨.ChString, 0⟩, none⟩], str "index", [],
    fun _ => false, fun _ => false, fun _ => false, fun _ => true⟩

/-- C6 witness: the reserved header name "index" is renamed to "index1",
the key becomes "index1" and names an existing column. -/
theorem C6_witness :
    ((⟨str "index1", [⟨str "index1", ⟨.ChString, 0⟩, none⟩]⟩ : TableDef).Key ∈
      (⟨str "index1", [⟨str "index1", ⟨.ChString, 0⟩, none⟩]⟩ : TableDef).FieldDefs.map
        FieldDef.Name) ∧
    (∃ n1, camelStage false (⟨str "index", ⟨.ChString, 0⟩, none⟩ : FieldDef).Name = .ok n1 ∧
      ((reserved.contains (goToLowerStr n1) = true ∧
          (⟨str "index1", ⟨.ChString, 0⟩, none⟩ : FieldDef).Name =
            (if false then goToLowerStr n1 else n1) ++ str "1") ∨
       (reserved.contains (goToLowerStr n1) = false ∧
          (⟨str "index1", ⟨.ChString, 0⟩, none⟩ : FieldDef).Name =
            (if false then goToLowerStr n1 else n1)))) :=
  ⟨(C6_reserved_rename_and_key false false).1 envC6 (str "x.csv") 0 []
      ⟨str "index1", [⟨str "index1", ⟨.ChString, 0⟩, none⟩]⟩ (by decide) (by decide),
    (C6_reserved_rename_and_key false false).2 ⟨str "index", ⟨.ChString, 0⟩, none⟩
      ⟨str "index1", ⟨.ChString, 0⟩, none⟩ (by decide)⟩

/-- C8: with row-error tolerance off, any per-row write failure aborts the
export with an error (made fatal with a non-zero exit by main's
log.Fatalln); with tolerance on, failing rows are counted and skipped and
every acceptable row is still written; and the toggle flags passes through
to the export call is exactly "the lower-cased -i value is y". -/
theorem C8_row_error_tolerance :
    (∀ (writeOk : List GoStr → Bool) (rows : List (List GoStr)),
      (∃ r ∈ rows, writeOk r = false) → ∃ m, chExport writeOk false rows = .error m) ∧
    (∀ (writeOk : List GoStr → Bool) (rows : List (List GoStr)),
      chExport writeOk true rows =
        .ok (rows.countP writeOk, rows.countP (fun r => !writeOk r))) ∧
    (∀ (sTypeP camelP headerP fieldP quoteP xlRowsP xlColsP : GoStr) (skipP : Int)
        (ignoreP : GoStr) (o : FlagsOk),
      flags sTypeP camelP headerP fieldP quoteP xlRowsP xlColsP skipP ignoreP = .ok o →
      o.ignore = (goToLowerStr ignoreP == str "y")) := by
  refine ⟨fun writeOk rows => ?_, fun writeOk rows => ?_, ?_⟩
  · induction rows with
    | nil => rintro ⟨r, hr, _⟩; cases hr
    | cons a l ih =>
      rintro ⟨r, hr, hfail⟩
      by_cases hwa : writeOk a = true
      · have hrl : r ∈ l := by
          cases hr with
          | head => rw [hfail] at hwa; cases hwa
          | tail _ h => exact h
        obtain ⟨m, hm⟩ := ih ⟨r, hrl, hfail⟩
        exact ⟨m, by simp [chExport, hwa, hm]⟩
      · exact ⟨"export: write failed", by simp [chExport, hwa]⟩
  · induction rows with
    | nil => rfl
    | cons a l ih =>
      by_cases hwa : writeOk a = true
      · simp [chExport, hwa, ih, List.countP_cons]
      · have hwa' : writeOk a = false := by simpa using hwa
        simp [chExport, hwa', ih, List.countP_cons]
  · intro sTypeP camelP headerP fieldP quoteP xlRowsP xlColsP skipP ignoreP o h
    unfold flags at h
    split at h
    · cases h
    · split at h
      · cases h
      · split at h
        · cases h
        · split at h
          · cases h
          · split at h
            · cases h
            · split at h
              · cases h
              · split at h
                · cases h
                · split at h
                  · cases h
                  · split at h
                    · cases h
                    · obtain rfl := FlagsResult.ok.inj h
                      rfl

/-- C8 witness: a rejecting destination makes a zero-tolerance export fail;
a tolerant export over a mixed batch writes the good rows and counts the
bad ones; and flags digests -i Y into a true toggle. -/
theorem C8_witness :
    (∃ m, chExport (fun _ => false) false [[str "x"]] = .error m) ∧
    (chExport (fun r => r ≠ [str "bad"]) true [[str "good"], [str "bad"], [str "also"]] =
      .ok (([[str "good"], [str "bad"], [str "also"]] : List (List GoStr)).countP
            (fun r => r ≠ [str "bad"]),
          ([[str "good"], [str "bad"], [str "also"]] : List (List GoStr)).countP
            (fun r => !(decide (r ≠ [str "bad"]))))) ∧
    ((⟨[], [], false, true, '"', [0, 0, 0, 0]⟩ : FlagsOk).ignore =
      (goToLowerStr (str "Y") == str "y")) :=
  ⟨C8_row_error_tolerance.1 (fun _ => false) [[str "x"]] ⟨[str "x"], by decide, rfl⟩,
    C8_row_error_tolerance.2.1 (fun r => r ≠ [str "bad"])
      [[str "good"], [str "bad"], [str "also"]],
    C8_row_error_tolerance.2.2 (str "csv") (str "n") [] [] (str "\"") (str "0:0")
      (str "0:0") 0 (str "Y") ⟨[], [], false, true, '"', [0, 0, 0, 0]⟩ (by decide)⟩

/-- C4 counterexample: the claim says the body is fetched over HTTP if and
only if the identifier is a URL, and that a local path that is not a URL is
always opened locally.  The source routes on a substring test instead: the
local path "/tmp/http_dump.csv" is not a URL, yet NewReader sends it to the
HTTP fetcher because its name contains "http". -/
theorem C4_counterexample :
    NewReaderRoute (str "/tmp/http_dump.csv") = .viaHttp ∧
      isURLSpec (str "/tmp/http_dump.csv") = false := by
  constructor <;> decide

/-- C4 (amended): the reader fetches the body over HTTP if and only if the
lower-cased source identifier contains the substring "http" (so every
http/https URL is fetched over HTTP), and a source whose lower-cased name
does not contain "http" is always opened as a local filesystem path. -/
theorem C4_amended_theorem :
    (∀ source : GoStr, NewReaderRoute source = .viaHttp ↔ usesHttp source = true) ∧
    (∀ source : GoStr, usesHttp source = false → NewReaderRoute source = .viaFile) ∧
    (∀ source : GoStr, isURLSpec source = true → NewReaderRoute source = .viaHttp) := by
  refine ⟨fun source => ?_, fun source h => ?_, fun source h => ?_⟩
  · unfold NewReaderRoute
    cases h : usesHttp source <;> simp [h]
  · simp [NewReaderRoute, h]
  · have hc : usesHttp source = true := by
      unfold isURLSpec at h
      rcases Bool.or_eq_true_iff.mp h with h' | h'
      · have h4 : goStartsWith (goToLowerStr source) (str "http") = true :=
          goStartsWith_mono (str "http") (goToLowerStr source) (str "://")
            (by rwa [show str "http" ++ str "://" = str "http://" by decide])
        exact goContains_of_startsWith _ _ h4
      · have h4 : goStartsWith (goToLowerStr source) (str "http") = true :=
          goStartsWith_mono (str "http") (goToLowerStr source) (str "s://")
            (by rwa [show str "http" ++ str "s://" = str "https://" by decide])
        exact goContains_of_startsWith _ _ h4
    simp [NewReaderRoute, hc]

/-- C4 amended witness: concrete instances of the amended routing facts. -/
theorem C4_amended_witness :
    (NewReaderRoute (str "data.csv") = .viaFile) ∧
      (NewReaderRoute (str "https://x.org/a.csv") = .viaHttp) :=
  ⟨C4_amended_theorem.2.1 (str "data.csv") (by decide),
    C4_amended_theorem.2.2 (str "https://x.org/a.csv") (by decide)⟩

/-- C5 (code bug): with a two-character -q value and every other option
valid, flags returns success — not a descriptive error.  The Go source
stores the error "-q option is a single character" in the named err return
without returning, and the later strconv.ParseInt assignments overwrite err
before flags returns, so the run proceeds (quote silently truncated to the
first character) and I/O against the source and destination does occur. -/
theorem C5_quote_length_error_dropped :
    flags (str "csv") (str "N") [] [] (str "ab") (str "0:0") (str "0:0") 0 (str "N") =
      .ok ⟨[], [], false, false, 'a', [0, 0, 0, 0]⟩ ∧
    (mainModel envEx (str "data.csv") (str "csv") (str "N") [] [] (str "ab")
      (str "0:0") (str "0:0") 0 (str "N")).2 ≠ [] := by
  constructor <;> decide

/-- C7: the skip count handed to NewReader is the caller's skip plus one
exactly when no header names were supplied (the header row is consumed by
Init, never yielded as data), and the caller's skip unchanged when names
were supplied; the source open is always the first effect of buildReader. -/
theorem C7_header_skip (env : Env) (source : GoStr) (skip : Int) (camel : Bool)
    (headers fieldTypes : List GoStr) :
    ((buildReaderModel env source skip camel headers fieldTypes).2.head? =
      some (if usesHttp source then Effect.openHttp (effSkip headers skip)
            else Effect.openFile (effSkip headers skip))) ∧
    (headers = [] → effSkip headers skip = skip + 1) ∧
    (headers ≠ [] → effSkip headers skip = skip) := by
  refine ⟨?_, ?_, ?_⟩
  · cases h1 : headerPhase env camel headers with
    | none => simp [buildReaderModel, h1]
    | some v =>
      cases h2 : typePhase env fieldTypes v.2 with
      | error m => simp [buildReaderModel, h1, h2]
      | ok fds2 => simp [buildReaderModel, h1, h2]
  · intro h; simp [effSkip, h]
  · intro h; simp [effSkip, h]

/-- C7 witness: with no headers the reader is opened with skip 5 + 1; with
a supplied header it is opened with skip 5 unchanged. -/
theorem C7_witness :
    ((buildReaderModel envEx (str "a.csv") 5 false [] []).2.head? =
      some (if usesHttp (str "a.csv") then Effect.openHttp (effSkip [] 5)
            else Effect.openFile (effSkip [] 5))) ∧
    effSkip [] 5 = 5 + 1 ∧ effSkip [str "x"] 5 = 5 :=
  ⟨(C7_header_skip envEx (str "a.csv") 5 false [] []).1,
    (C7_header_skip envEx (str "a.csv") 5 false [] []).2.1 rfl,
    (C7_header_skip envEx (str "a.csv") 5 false [str "x"] []).2.2 (by decide)⟩

/-- C9: the camel-case transform is total exactly on names whose final
character is not '.', '_' or a space: for every such name toCamel
terminates and returns a name free of '.' and '_', while for any name
ending in '.', '_' or a space the two-character slice snake[ind:ind+2]
eventually runs past the end of the string and the transform panics,
crashing the run. -/
theorem C9_toCamel_totality :
    (∀ snake : GoStr, (∀ c, snake.getLast? = some c → c ≠ '.' ∧ c ≠ '_' ∧ c ≠ ' ') →
      ∃ t, toCamelGo snake = .ok t ∧ ∀ x ∈ t, x ≠ '.' ∧ x ≠ '_') ∧
    (∀ snake : GoStr, ∀ c, snake.getLast? = some c → (c = '.' ∨ c = '_' ∨ c = ' ') →
      toCamelGo snake = .panicked) := by
  constructor
  · intro snake hlast
    have h2last : ∀ c', (goToLowerStr (goSwapAll ' ' '_' snake)).getLast? = some c' →
        isSep c' = false := by
      intro c' hc'
      rw [toCamelGo_last snake] at hc'
      cases hsl : snake.getLast? with
      | none => rw [hsl] at hc'; cases hc'
      | some c0 =>
        rw [hsl, Option.map_some'] at hc'
        obtain rfl := Option.some.inj hc'
        obtain ⟨h1, h2, h3⟩ := hlast c0 hsl
        rw [show (if c0 == ' ' then '_' else c0) = c0 from if_neg (by simp [h3])]
        apply isSep_goLowerChar_of_not
        unfold isSep
        rw [Bool.or_eq_false_iff]
        exact ⟨beq_eq_false_iff_ne.mpr h1, beq_eq_false_iff_ne.mpr h2⟩
    obtain ⟨t, ht, htf⟩ := toCamelLoop_ok
      ((goToLowerStr (goSwapAll ' ' '_' snake)).length + 1)
      (goToLowerStr (goSwapAll ' ' '_' snake)) (Nat.lt_succ_self _) h2last
    refine ⟨t, ht, fun x hx => ?_⟩
    have hxf := htf x hx
    unfold isSep at hxf
    rw [Bool.or_eq_false_iff] at hxf
    exact ⟨beq_eq_false_iff_ne.mp hxf.1, beq_eq_false_iff_ne.mp hxf.2⟩
  · intro snake c hc hbad
    show toCamelLoop _ _ = .panicked
    apply toCamelLoop_panics _ _ (Nat.lt_succ_self _)
      (goLowerChar (if c == ' ' then '_' else c))
    · rw [toCamelGo_last snake, hc, Option.map_some']
    · rcases hbad with rfl | rfl | rfl <;> decide

/-- C9 witness: "a_b" (not ending in a separator) camel-cases to a
separator-free name, while "a_" panics. -/
theorem C9_witness :
    (∃ t, toCamelGo (str "a_b") = .ok t ∧ ∀ x ∈ t, x ≠ '.' ∧ x ≠ '_') ∧
    toCamelGo (str "a_") = .panicked :=
  ⟨C9_toCamel_totality.1 (str "a_b") (by
      intro c hc
      rw [show (str "a_b").getLast? = some 'b' from by decide] at hc
      obtain rfl := Option.some.inj hc
      decide),
    C9_toCamel_totality.2 (str "a_") '_' (by decide) (by decide)⟩

/-- C10: flags indexes the first byte of the -q option unconditionally —
the length guard only rejects values longer than one character — so once
the source-type, -c and -i checks pass, an empty -q value panics with an
index-out-of-range error instead of returning a configuration error. -/
theorem C10_empty_quote_panics (sTypeP camelP headerP fieldP xlRowsP xlColsP : GoStr)
    (skipP : Int) (ignoreP : GoStr)
    (h1 : isIn sTypeP types = true) (h2 : isIn camelP ctypes = true)
    (h3 : isIn ignoreP ctypes = true) :
    flags sTypeP camelP headerP fieldP [] xlRowsP xlColsP skipP ignoreP = .panicked := by
  simp [flags, h1, h2, h3]

/-- C10 witness: a fully valid command line apart from -q "" panics. -/
theorem C10_witness :
    flags (str "csv") (str "N") [] [] [] (str "0:0") (str "0:0") 0 (str "N") = .panicked :=
  C10_empty_quote_panics (str "csv") (str "N") [] [] (str "0:0") (str "0:0") 0 (str "N")
    (by decide) (by decide) (by decide)
